import Mathlib

/-!
Verification of the core of a JavaScript merge-request review tool.

The development shallowly embeds the repository's diff line mapper
(`src/diff_utils.js`), the minimal-coverage section selector and helpers
(`src/ast_utils.js`), the JS AST-context pipeline (`src/ast_context.js`)
and the Vue component pipeline (the unnamed module providing
`extractVueAstContext`).  Lines of a diff are modelled as `List Char`
(the JS code splits the diff text on a newline character before any
processing); JS `Set` objects are modelled as lists with membership
semantics; JS numbers arising here are non-negative integers and are
modelled as `Nat`.
-/

/-- A physical line of text, as produced by splitting on a newline. -/
abbrev Line := List Char

/-- The JS test `line.startsWith(p)` on a split diff line. -/
def lineStarts (p : String) (l : Line) : Bool :=
  p.toList.isPrefixOf l

/-- Value of `parseInt(s, 10)` on a non-empty all-digit capture. -/
def digitsToNat (ds : List Char) : Nat :=
  ds.foldl (fun n c => n * 10 + (c.toNat - '0'.toNat)) 0

/-- Attempt to match the hunk-header regular expression
`@@ -\d+(,\d+)? \+(\d+)(,\d+)? @@` (src/diff_utils.js line 22) starting at
the head of `cs`; returns the second capture group (the new-file start) as
a `Nat`.  The regex's greedy `\d+` is maximal-munch here because each
continuation after a digit run begins with a non-digit character. -/
def matchHeaderAt (cs : List Char) : Option Nat :=
  match cs with
  | '@' :: '@' :: ' ' :: '-' :: rest =>
    let ds1 := rest.takeWhile Char.isDigit
    let r1 := rest.dropWhile Char.isDigit
    if ds1.isEmpty then none else
    let r2 : List Char :=
      match r1 with
      | ',' :: r => if (r.takeWhile Char.isDigit).isEmpty then r1 else r.dropWhile Char.isDigit
      | _ => r1
    match r2 with
    | ' ' :: '+' :: r3 =>
      let ds2 := r3.takeWhile Char.isDigit
      let r4 := r3.dropWhile Char.isDigit
      if ds2.isEmpty then none else
      let r5 : List Char :=
        match r4 with
        | ',' :: r => if (r.takeWhile Char.isDigit).isEmpty then r4 else r.dropWhile Char.isDigit
        | _ => r4
      match r5 with
      | ' ' :: '@' :: '@' :: _ => some (digitsToNat ds2)
      | _ => none
    | _ => none
  | _ => none

/-- The search `regex.exec(line)`: scan the line left to right for the first position
at which the hunk-header pattern matches, returning the captured new-file
start line. -/
def execHunkHeader : Line → Option Nat
  | [] => none
  | c :: rest =>
    match matchHeaderAt (c :: rest) with
    | some n => some n
    | none => execHunkHeader rest

/-- Running state of `parseDiffNewlineMap` (src/diff_utils.js lines 12-42):
the accumulated `[diff position, new-file line]` pairs and the
`currentNewLine` counter, with `none` standing for the JS sentinel `-1`. -/
structure PDState where
  mapping : List (Nat × Nat)
  currentNewLine : Option Nat
deriving DecidableEq, Repr

/-- One iteration of the `parseDiffNewlineMap` loop body on the line at
0-based index `i` (src/diff_utils.js lines 18-39). -/
def pdStep (i : Nat) (line : Line) (s : PDState) : PDState :=
  if lineStarts "@@" line then
    match execHunkHeader line with
    | some n => { s with currentNewLine := some n }
    | none => s
  else if lineStarts "+" line && !(lineStarts "+++" line) then
    match s.currentNewLine with
    | some n => { mapping := s.mapping ++ [(i + 1, n)], currentNewLine := some (n + 1) }
    | none => s
  else if !(lineStarts "-" line) || lineStarts "---" line then
    match s.currentNewLine with
    | some n => { s with currentNewLine := some (n + 1) }
    | none => s
  else s

/-- The `parseDiffNewlineMap` loop over the remaining lines, starting at
0-based index `i`. -/
def pdRun : Nat → List Line → PDState → PDState
  | _, [], s => s
  | i, l :: ls, s => pdRun (i + 1) ls (pdStep i l s)

/-- Run of `parseDiffNewlineMap` on an already-split list of diff lines. -/
def parseDiffNewlineMapLines (diffLines : List Line) : List (Nat × Nat) :=
  (pdRun 0 diffLines { mapping := [], currentNewLine := none }).mapping

/-- The mapper `parseDiffNewlineMap(diffText)` (src/diff_utils.js lines 12-42):
split on newline, then run the mapping loop. -/
def parseDiffNewlineMap (diffText : String) : List (Nat × Nat) :=
  parseDiffNewlineMapLines ((diffText.toList.splitOn '\n'))

/-- State of the specification-side line counter: new-file line numbers
already collected for `+` lines, and the current new-file counter
(`none` while outside any hunk). -/
structure SpecDiffState where
  added : List Nat
  cur : Option Nat
deriving DecidableEq, Repr

/-- Specification-side step, following the spec's §4.1 wording: a hunk
header (re)initialises the new-file counter; a line beginning `-` advances
only the old counter; a line beginning `+` advances the new counter and,
unless it is a `+++` file header, registers its new-file line number; any
other line advances both counters.  A header without a matched new-start
yields no mapping until the next valid header. -/
def specDiffStep (line : Line) (s : SpecDiffState) : SpecDiffState :=
  if lineStarts "@@" line then
    match execHunkHeader line with
    | some n => { s with cur := some n }
    | none => { s with cur := none }
  else if lineStarts "-" line then
    s
  else if lineStarts "+" line then
    match s.cur with
    | some n =>
      if lineStarts "+++" line then { s with cur := some (n + 1) }
      else { added := s.added ++ [n], cur := some (n + 1) }
    | none => s
  else
    match s.cur with
    | some n => { s with cur := some (n + 1) }
    | none => s

/-- Fold of the specification-side step over the diff lines. -/
def specRun (ls : List Line) (s : SpecDiffState) : SpecDiffState :=
  ls.foldl (fun s l => specDiffStep l s) s

/-- The set (as an ordered list, duplicates possible) of new-file line
numbers of all `+` lines across all hunks, per the spec's §4.1/§8
counting semantics. -/
def specAddedLines (diffLines : List Line) : List Nat :=
  (specRun diffLines { added := [], cur := none }).added

example : parseDiffNewlineMap "@@ -1,2 +3,4 @@\n ctx\n+x\n-y\n+z" = [(3, 4), (5, 5)] := by
  decide

example : parseDiffNewlineMapLines [("@@ -1,2 +1,2 @@").toList, ("---a").toList, ("+b").toList] = [(3, 2)] := by
  decide

example : specAddedLines [("@@ -1,2 +1,2 @@").toList, ("---a").toList, ("+b").toList] = [1] := by
  decide

example : specAddedLines (("@@ -1,2 +3,4 @@\n ctx\n+x\n-y\n+z").toList.splitOn '\n') = [4, 5] := by
  decide

example : execHunkHeader ("@@ bad @@").toList = none := by decide

example : parseDiffNewlineMapLines [("@@ -1 +5 @@").toList, ("+a").toList, ("@@ bad @@").toList, ("+b").toList] = [(2, 5), (4, 6)] := by
  decide

/-!
## AST data model

`collectImpactedSections` (src/ast_context.js lines 94-156) pushes, for
every qualifying AST node that contains an added line, a record with the
node's kind, resolved name, 1-based line range, character offsets, the
added lines it contains and its size in lines.
-/

/-- The configuration bundle consumed by the extractors
(`astConfig` in src/config.js). -/
structure AstConfig where
  maxSnippetLength : Nat
  maxBlockSizeLines : Nat
  maxDepth : Nat
  timeoutMs : Nat
deriving DecidableEq, Repr

/-- A candidate unit pushed by `collectImpactedSections`
(src/ast_context.js lines 131-140). -/
structure Candidate where
  type : List Char
  name : List Char
  start_line : Nat
  end_line : Nat
  start_offset : Nat
  end_offset : Nat
  added_lines : List Nat
  size : Nat
deriving DecidableEq, Repr

/-- The `truncation_reason` values emitted by the size limiters. -/
inductive TruncationReason
  | char_limit
  | line_limit
deriving DecidableEq, Repr

/-- A Section as emitted by `limitSectionSize` (src/ast_context.js lines
187-238) and by the component extractor's final remap; fields that the JS
object simply omits are modelled with the defaults `false` / `none`. -/
structure EmittedSection where
  type : List Char
  name : List Char
  start_line : Nat
  end_line : Nat
  added_lines : List Nat
  snippet : List Char
  is_truncated : Bool := false
  truncation_reason : Option TruncationReason := none
  summary : Option (List Char) := none
deriving DecidableEq, Repr

/-- The size order used by `sections.sort((a, b) => a.size - b.size)`
(src/ast_utils.js line 118); the JS sort is stable, so it is embedded as
a stable insertion sort under this total preorder. -/
def sizeLE (a b : Candidate) : Prop := a.size ≤ b.size

instance : DecidableRel sizeLE := fun a b => Nat.decLe a.size b.size

instance : IsTotal Candidate sizeLE := ⟨fun a b => Nat.le_total a.size b.size⟩

instance : IsTrans Candidate sizeLE := ⟨fun _ _ _ h h' => Nat.le_trans h h'⟩

/-- The greedy covering loop of `selectSmallestSections`
(src/ast_utils.js lines 120-137): scan the size-sorted candidates; keep a
candidate iff it still has an added line not in `coveredLines`, then mark
all its added lines covered. -/
def selectLoop : List Candidate → List Nat → List Candidate
  | [], _ => []
  | sec :: rest, coveredLines =>
    let sectionLines := sec.added_lines.filter (fun line => decide (line ∉ coveredLines))
    if 0 < sectionLines.length then
      sec :: selectLoop rest (coveredLines ++ sec.added_lines)
    else
      selectLoop rest coveredLines

/-- The selector `selectSmallestSections(sections, addedLines)` (src/ast_utils.js lines
113-138).  `addedLines` is accepted but, as in the source, not consulted:
the loop reads each candidate's own `added_lines` field. -/
def selectSmallestSections (sections : List Candidate) (addedLines : List Nat) : List Candidate :=
  match sections with
  | [] => []
  | [s] => [s]
  | _ => selectLoop (List.insertionSort sizeLE sections) []

/-- The JS `code.substring(a, b)`: clamp both indices to the string length, swap
them if needed, and return the characters in between. -/
def jsSubstring (s : List Char) (a b : Nat) : List Char :=
  (s.take (max (min a s.length) (min b s.length))).drop (min (min a s.length) (min b s.length))

/-- The marker appended by the character-limit truncation branch:
`"\n\n/* ... 代码过长已截断 (总长" + n + "字符) */"` where `n` is the
untruncated snippet length (src/ast_context.js lines 198-199 and the
identical text in the component module). -/
def truncMarker (n : Nat) : List Char :=
  ("\n\n/* ... 代码过长已截断 (总长").toList ++ (Nat.repr n).toList ++ ("字符) */").toList

/-- The JS `lines.slice(a, b)` for non-negative arguments. -/
def jsSlice (l : List Line) (a b : Nat) : List Line :=
  (l.take b).drop a

/-- Render one context line as `` `${actualLineNum}| ${line}${marker}` ``
with the `" ← 新增"` marker on the added line itself
(src/ast_utils.js lines 159-163). -/
def renderContextLine (lineNum actualLineNum : Nat) (line : Line) : Line :=
  (Nat.repr actualLineNum).toList ++ ("| ").toList ++ line ++
    (if actualLineNum = lineNum then (" ← 新增").toList else [])

/-- The windower `extractContextAroundLines(code, addedLines, blockStart, blockEnd, radius)`
(src/ast_utils.js lines 149-169): for every added line, a window of
`radius` lines on each side clamped to the block, each line annotated with
its absolute number, windows joined by an elision marker.  Line numbers
are 1-based positive, so the JS subtractions stay non-negative. -/
def extractContextAroundLines (code : List Char) (addedLines : List Nat)
    (blockStart blockEnd radius : Nat) : List Char :=
  let lines := code.splitOn '\n'
  let contexts := addedLines.map (fun lineNum =>
    let contextStart := max blockStart (lineNum - radius)
    let contextEnd := min blockEnd (lineNum + radius)
    let contextLines := jsSlice lines (contextStart - 1) contextEnd
    List.intercalate ('\n' :: [])
      (contextLines.enum.map (fun p => renderContextLine lineNum (contextStart + p.1) p.2)))
  List.intercalate ("\n\n...\n\n").toList contexts

/-- The summary attached by the JS line-limit branch:
`` `函数较大(${size}行)，只显示新增行周围${8}行上下文` ``. -/
def lineLimitSummary (size : Nat) : List Char :=
  ("函数较大(").toList ++ (Nat.repr size).toList ++ ("行)，只显示新增行周围8行上下文").toList

/-- The limiter `limitSectionSize(section, code, config)` (src/ast_context.js lines
187-238): character-limit truncation first, else line-count windowing,
else the unmodified snippet. -/
def limitSectionSize (sec : Candidate) (code : List Char) (config : AstConfig) : EmittedSection :=
  let snippet := jsSubstring code sec.start_offset sec.end_offset
  if config.maxSnippetLength < snippet.length then
    { type := sec.type, name := sec.name, start_line := sec.start_line,
      end_line := sec.end_line, added_lines := sec.added_lines,
      snippet := snippet.take config.maxSnippetLength ++ truncMarker snippet.length,
      is_truncated := true, truncation_reason := some TruncationReason.char_limit }
  else if config.maxBlockSizeLines < sec.size then
    { type := sec.type, name := sec.name, start_line := sec.start_line,
      end_line := sec.end_line, added_lines := sec.added_lines,
      snippet := extractContextAroundLines code sec.added_lines sec.start_line sec.end_line 8,
      is_truncated := true, truncation_reason := some TruncationReason.line_limit,
      summary := some (lineLimitSummary sec.size) }
  else
    { type := sec.type, name := sec.name, start_line := sec.start_line,
      end_line := sec.end_line, added_lines := sec.added_lines, snippet := snippet }

/-- The section-assembly tail of `extractJsAstContext`
(src/ast_context.js lines 62-68): select the minimal covering candidates,
then apply the size limiter to each. -/
def jsImpactedSections (allSections : List Candidate) (addedLines : List Nat)
    (code : List Char) (config : AstConfig) : List EmittedSection :=
  (selectSmallestSections allSections addedLines).map (fun s => limitSectionSize s code config)

/-!
## Vue component module

The component extractor (the module providing `extractVueAstContext`) has
its own copies of the selector and the size limiter, operating on section
records that already carry a snippet and a size.
-/

/-- A section pushed by `collectScriptSections` (component module lines
144-152); the component-local `applySectionSizeLimit` spreads the record,
so truncation fields live on the same type with absent-field defaults. -/
structure VSection where
  type : List Char
  name : List Char
  start_line : Nat
  end_line : Nat
  added_lines : List Nat
  size : Nat
  snippet : List Char
  is_truncated : Bool := false
  truncation_reason : Option TruncationReason := none
  summary : Option (List Char) := none
deriving DecidableEq, Repr

/-- Size order for the component-local `sort((a, b) => a.size - b.size)`. -/
def vSizeLE (a b : VSection) : Prop := a.size ≤ b.size

instance : DecidableRel vSizeLE := fun a b => Nat.decLe a.size b.size

instance : IsTotal VSection vSizeLE := ⟨fun a b => Nat.le_total a.size b.size⟩

instance : IsTrans VSection vSizeLE := ⟨fun _ _ _ h h' => Nat.le_trans h h'⟩

/-- The component-local context windower (component module lines 324-344):
windows are computed relative to the snippet, then annotated with absolute
line numbers. -/
def vueExtractContextAroundLines (snippet : List Char) (addedLines : List Nat)
    (blockStart blockEnd radius : Nat) : List Char :=
  let lines := snippet.splitOn '\n'
  let contexts := addedLines.map (fun lineNum =>
    let relativeLineNum := lineNum - blockStart + 1
    let contextStart := max 1 (relativeLineNum - radius)
    let contextEnd := min lines.length (relativeLineNum + radius)
    let contextLines := jsSlice lines (contextStart - 1) contextEnd
    List.intercalate ('\n' :: [])
      (contextLines.enum.map (fun p =>
        renderContextLine lineNum (blockStart + contextStart - 1 + p.1) p.2)))
  List.intercalate ("\n\n...\n\n").toList contexts

/-- The summary attached by the component line-limit branch:
`` `代码块较大(${size}行)，只显示新增行周围${8}行上下文` ``. -/
def vueLineLimitSummary (size : Nat) : List Char :=
  ("代码块较大(").toList ++ (Nat.repr size).toList ++ ("行)，只显示新增行周围8行上下文").toList

/-- The limiter `applySectionSizeLimit(section, config)` (component module lines
285-319): character-limit truncation first, else line-count windowing,
else the section unchanged. -/
def applySectionSizeLimit (sec : VSection) (config : AstConfig) : VSection :=
  if config.maxSnippetLength < sec.snippet.length then
    { sec with
      snippet := sec.snippet.take config.maxSnippetLength ++ truncMarker sec.snippet.length,
      is_truncated := true, truncation_reason := some TruncationReason.char_limit }
  else if config.maxBlockSizeLines < sec.size then
    { sec with
      snippet := vueExtractContextAroundLines sec.snippet sec.added_lines sec.start_line
        sec.end_line 8,
      is_truncated := true, truncation_reason := some TruncationReason.line_limit,
      summary := some (vueLineLimitSummary sec.size) }
  else sec

/-- The greedy covering loop of the component-local
`selectSmallestSections` (component module lines 258-277): coverage is
computed from the added-line set intersected with the section's line
range, and each kept section is size-limited on the spot. -/
def vueSelectLoop (addedLines : List Nat) (config : AstConfig) :
    List VSection → List Nat → List VSection
  | [], _ => []
  | sec :: rest, coveredLines =>
    let sectionLines := addedLines.filter
      (fun line => decide (sec.start_line ≤ line ∧ line ≤ sec.end_line))
    let hasUncoveredLines := sectionLines.any (fun line => decide (line ∉ coveredLines))
    if hasUncoveredLines then
      applySectionSizeLimit sec config ::
        vueSelectLoop addedLines config rest (coveredLines ++ sectionLines)
    else
      vueSelectLoop addedLines config rest coveredLines

/-- The component-local `selectSmallestSections(sections, addedLines)`
(component module lines 246-280); a single candidate is returned with the
size limit applied but without the covering pass. -/
def vueSelectSmallestSections (sections : List VSection) (addedLines : List Nat)
    (config : AstConfig) : List VSection :=
  match sections with
  | [] => []
  | [s] => [applySectionSizeLimit s config]
  | _ => vueSelectLoop addedLines config (List.insertionSort vSizeLE sections) []

/-- The added-line remap of `extractScriptContext` (component module lines
64-68): keep the global lines at or after the region's 1-based starting
line and shift them into the region's local coordinates. -/
def adjustAddedLines (addedLines : List Nat) (scriptStartLine : Nat) : List Nat :=
  (addedLines.filter (fun line => decide (scriptStartLine ≤ line))).map
    (fun line => line - scriptStartLine + 1)

/-- The inverse remap applied to every returned section (component module
lines 87-97): shift `start_line`, `end_line` and `added_lines` back to
file-global coordinates via `local + offset - 1`. -/
def remapSection (scriptStartLine : Nat) (sec : VSection) : EmittedSection :=
  { type := sec.type, name := sec.name,
    start_line := sec.start_line + scriptStartLine - 1,
    end_line := sec.end_line + scriptStartLine - 1,
    added_lines := sec.added_lines.map (fun l => l + scriptStartLine - 1),
    snippet := sec.snippet, is_truncated := sec.is_truncated,
    truncation_reason := sec.truncation_reason, summary := sec.summary }

/-- The section-producing tail of `extractScriptContext` (component module
lines 63-97) on already-collected candidates: remap the added lines into
region coordinates, run the component selector, and remap the selected
sections back to file-global coordinates. -/
def extractScriptSections (allSections : List VSection) (addedLines : List Nat)
    (scriptStartLine : Nat) (config : AstConfig) : List EmittedSection :=
  let adjustedAddedLines := adjustAddedLines addedLines scriptStartLine
  (vueSelectSmallestSections allSections adjustedAddedLines config).map
    (remapSection scriptStartLine)

/-- Ascending `start_line` order used by
`allSections.sort((a, b) => a.start_line - b.start_line)`
(component module line 444). -/
def startLineLE (a b : EmittedSection) : Prop := a.start_line ≤ b.start_line

instance : DecidableRel startLineLE := fun a b => Nat.decLe a.start_line b.start_line

instance : IsTotal EmittedSection startLineLE := ⟨fun a b => Nat.le_total a.start_line b.start_line⟩

instance : IsTrans EmittedSection startLineLE := ⟨fun _ _ _ h h' => Nat.le_trans h h'⟩

/-- The final assembly of `extractVueAstContext` (component module lines
407-446): concatenate the sections of the script and script-setup regions
and sort them ascending by `start_line` (the JS sort is stable). -/
def vueAssembleImpacted (scriptSections scriptSetupSections : List EmittedSection) :
    List EmittedSection :=
  List.insertionSort startLineLE (scriptSections ++ scriptSetupSections)

/-!
## Dispatch layer

`extractAstContext` (src/ast_context.js lines 246-275) routes on the file
extension and converts any exception from an inner extractor into an
`unexpected_error:` tag.  An inner extractor's outcome is modelled as an
`Except` value: `Except.error msg` stands for a thrown exception whose
`.message` is `msg`.
-/

/-- The Extraction Result envelope: sections plus error tags
(`parse_time_ms`, being wall-clock time, is not modelled). -/
structure ExtractionResult where
  impacted_sections : List EmittedSection
  errors : List (List Char)
deriving DecidableEq, Repr

/-- The test `/\.(js|jsx|ts|tsx)$/.test(filePath)`. -/
def isJsFilePath (p : List Char) : Bool :=
  (".js").toList.isSuffixOf p || (".jsx").toList.isSuffixOf p ||
    (".ts").toList.isSuffixOf p || (".tsx").toList.isSuffixOf p

/-- The test `/\.vue$/.test(filePath)`. -/
def isVueFilePath (p : List Char) : Bool :=
  (".vue").toList.isSuffixOf p

/-- The `unexpected_error: <message>` tag built in the dispatch catch. -/
def unexpectedErrorTag (msg : List Char) : List Char :=
  ("unexpected_error: ").toList ++ msg

/-- The dispatcher `extractAstContext(filePath, addedLines, projectRoot)`
(src/ast_context.js lines 246-275): route by extension; an unrecognized
extension yields the `unsupported_file_type` result; a thrown inner
exception is caught and converted into an `unexpected_error:` tag.  The
function is total: every input yields a well-formed `ExtractionResult`. -/
def extractAstContext (filePath : List Char)
    (jsExtractor vueExtractor : Except (List Char) ExtractionResult) : ExtractionResult :=
  let attempt : Except (List Char) ExtractionResult :=
    if isJsFilePath filePath then jsExtractor
    else if isVueFilePath filePath then vueExtractor
    else Except.ok { impacted_sections := [], errors := [("unsupported_file_type").toList] }
  match attempt with
  | Except.ok result => result
  | Except.error msg => { impacted_sections := [], errors := [unexpectedErrorTag msg] }

/-!
## Selector lemmas
-/

/-- Unfolding equation of the greedy covering loop. -/
theorem selectLoop_cons (sec : Candidate) (rest : List Candidate) (covered : List Nat) :
    selectLoop (sec :: rest) covered =
      if 0 < (sec.added_lines.filter (fun line => decide (line ∉ covered))).length then
        sec :: selectLoop rest (covered ++ sec.added_lines)
      else selectLoop rest covered := rfl

/-- If the greedy loop skips a section, each of its added lines is already
covered. -/
theorem selectLoop_skip_covered (sec : Candidate) (covered : List Nat)
    (h : ¬ 0 < (sec.added_lines.filter (fun line => decide (line ∉ covered))).length) :
    ∀ x ∈ sec.added_lines, x ∈ covered := by
  intro x hx
  by_contra hxc
  apply h
  apply List.length_pos.mpr
  intro hnil
  have := List.filter_eq_nil_iff.mp hnil x hx
  simp [hxc] at this

/-- Every section kept by the greedy covering loop comes from its input
list. -/
theorem selectLoop_mem (ss : List Candidate) (covered : List Nat) :
    ∀ u ∈ selectLoop ss covered, u ∈ ss := by
  induction ss generalizing covered with
  | nil => simp [selectLoop]
  | cons sec rest ih =>
    intro u hu
    rw [selectLoop_cons] at hu
    by_cases h : 0 < (sec.added_lines.filter (fun line => decide (line ∉ covered))).length
    · rw [if_pos h] at hu
      rcases List.mem_cons.mp hu with hu | hu
      · exact hu ▸ List.mem_cons_self sec rest
      · exact List.mem_cons_of_mem sec (ih _ u hu)
    · rw [if_neg h] at hu
      exact List.mem_cons_of_mem sec (ih _ u hu)

/-- Covering invariant of the greedy loop: together with the already
covered lines, the kept sections' added lines are exactly the input
sections' added lines. -/
theorem selectLoop_cover_iff (l : Nat) (ss : List Candidate) (covered : List Nat) :
    ((∃ s ∈ selectLoop ss covered, l ∈ s.added_lines) ∨ l ∈ covered) ↔
      ((∃ s ∈ ss, l ∈ s.added_lines) ∨ l ∈ covered) := by
  induction ss generalizing covered with
  | nil => simp [selectLoop]
  | cons sec rest ih =>
    rw [selectLoop_cons]
    by_cases h : 0 < (sec.added_lines.filter (fun line => decide (line ∉ covered))).length
    · rw [if_pos h]
      have hiha := ih (covered ++ sec.added_lines)
      rw [List.mem_append] at hiha
      rw [List.exists_mem_cons_iff, List.exists_mem_cons_iff]
      constructor
      · rintro ((hA | hB) | hD)
        · exact Or.inl (Or.inl hA)
        · rcases hiha.mp (Or.inl hB) with hC | hDA
          · exact Or.inl (Or.inr hC)
          · rcases hDA with hD | hA
            · exact Or.inr hD
            · exact Or.inl (Or.inl hA)
        · exact Or.inr hD
      · rintro ((hA | hC) | hD)
        · exact Or.inl (Or.inl hA)
        · rcases hiha.mpr (Or.inl hC) with hB | hDA
          · exact Or.inl (Or.inr hB)
          · rcases hDA with hD | hA
            · exact Or.inr hD
            · exact Or.inl (Or.inl hA)
        · exact Or.inr hD
    · rw [if_neg h]
      have hcov := selectLoop_skip_covered sec covered h l
      have hihb := ih covered
      rw [List.exists_mem_cons_iff]
      constructor
      · intro h'
        rcases hihb.mp h' with hC | hD
        · exact Or.inl (Or.inr hC)
        · exact Or.inr hD
      · rintro ((hA | hC) | hD)
        · exact Or.inr (hcov hA)
        · exact hihb.mpr (Or.inl hC)
        · exact Or.inr hD

/-- Union-coverage of `selectSmallestSections`: a line occurs in some
selected section's `added_lines` iff it occurs in some input candidate's
`added_lines`. -/
theorem selectSmallest_mem_union (sections : List Candidate) (addedLines : List Nat) (l : Nat) :
    (∃ s ∈ selectSmallestSections sections addedLines, l ∈ s.added_lines) ↔
      (∃ s ∈ sections, l ∈ s.added_lines) := by
  match sections with
  | [] => simp [selectSmallestSections]
  | [s] => simp [selectSmallestSections]
  | a :: b :: rest =>
    have hsel : selectSmallestSections (a :: b :: rest) addedLines =
        selectLoop (List.insertionSort sizeLE (a :: b :: rest)) [] := rfl
    rw [hsel]
    have h1 := selectLoop_cover_iff l (List.insertionSort sizeLE (a :: b :: rest)) []
    simp only [List.not_mem_nil, or_false] at h1
    rw [h1]
    constructor
    · rintro ⟨s, hs, hls⟩
      exact ⟨s, (List.mem_insertionSort sizeLE).mp hs, hls⟩
    · rintro ⟨s, hs, hls⟩
      exact ⟨s, (List.mem_insertionSort sizeLE).mpr hs, hls⟩

/-- Key minimality invariant of the greedy loop on a size-sorted input:
every kept section owns a line that was uncovered at its turn, and that
line belongs to no kept section of strictly smaller size. -/
theorem selectLoop_min_line (ss : List Candidate) (covered : List Nat)
    (hsort : List.Pairwise sizeLE ss) :
    ∀ u ∈ selectLoop ss covered,
      ∃ l, l ∈ u.added_lines ∧ l ∉ covered ∧
        ∀ t ∈ selectLoop ss covered, t.size < u.size → l ∉ t.added_lines := by
  induction ss generalizing covered with
  | nil => simp [selectLoop]
  | cons sec rest ih =>
    rcases List.pairwise_cons.mp hsort with ⟨hhead, htail⟩
    intro u hu
    rw [selectLoop_cons] at hu ⊢
    by_cases h : 0 < (sec.added_lines.filter (fun line => decide (line ∉ covered))).length
    · rw [if_pos h] at hu ⊢
      rcases List.mem_cons.mp hu with hu | hu
      · subst hu
        obtain ⟨l, hl⟩ := List.exists_mem_of_ne_nil _ (List.length_pos.mp h)
        rw [List.mem_filter] at hl
        refine ⟨l, hl.1, by simpa using hl.2, ?_⟩
        intro t ht hlt
        rcases List.mem_cons.mp ht with ht | ht
        · subst ht
          exact absurd hlt (lt_irrefl _)
        · exact absurd hlt (not_lt.mpr (hhead t (selectLoop_mem _ _ t ht)))
      · obtain ⟨l, hl1, hl2, hl3⟩ := ih (covered ++ sec.added_lines) htail u hu
        rw [List.mem_append] at hl2
        push_neg at hl2
        refine ⟨l, hl1, hl2.1, ?_⟩
        intro t ht hlt
        rcases List.mem_cons.mp ht with ht | ht
        · subst ht
          exact hl2.2
        · exact hl3 t ht hlt
    · rw [if_neg h] at hu ⊢
      exact ih covered htail u hu

/-!
## Claims about the Minimal-Coverage Selector (C1, C2, C9)
-/

/-- C1: Coverage completeness of the Minimal-Coverage Selector — for every
list of candidate units and every added-line set, the union of the
`added_lines` of the units returned by `selectSmallestSections` equals the
union of the `added_lines` of all input candidates.  (Proved for arbitrary
candidate lists, so in particular for those whose `added_lines` field is
the candidate's intersection with the added-line set.) -/
theorem selectSmallestSections_coverage (sections : List Candidate) (addedLines : List Nat)
    (l : Nat) :
    (∃ s ∈ selectSmallestSections sections addedLines, l ∈ s.added_lines) ↔
      (∃ s ∈ sections, l ∈ s.added_lines) :=
  selectSmallest_mem_union sections addedLines l

/-- A one-line candidate covering added line 1, used in counterexamples. -/
def cexSmall : Candidate :=
  { type := [], name := [], start_line := 1, end_line := 1, start_offset := 0,
    end_offset := 0, added_lines := [1], size := 1 }

/-- A two-line candidate covering added lines 1 and 2, used in
counterexamples. -/
def cexBig : Candidate :=
  { type := [], name := [], start_line := 1, end_line := 2, start_offset := 0,
    end_offset := 0, added_lines := [1, 2], size := 2 }

/-- C2 counterexample: with candidates `{1}` (size 1) and `{1, 2}`
(size 2) both get selected — the second still covers the new line 2 — so
added line 1 appears in the `added_lines` of TWO selected units, refuting
"covered by exactly one selected unit". -/
theorem selectSmallest_unique_coverage_cex :
    ¬ (∀ (sections : List Candidate) (addedLines : List Nat) (l : Nat),
        (∃ s ∈ sections, l ∈ s.added_lines) →
        ((selectSmallestSections sections addedLines).filter
          (fun u => decide (l ∈ u.added_lines))).length = 1) := by
  intro h
  exact absurd (h [cexSmall, cexBig] [1, 2] 1 (by decide)) (by decide)

/-- C2 amended: every added line present in at least one candidate appears
in the `added_lines` of at least one unit selected by
`selectSmallestSections` (a line may however appear in several selected
units). -/
theorem selectSmallest_at_least_one (sections : List Candidate) (addedLines : List Nat)
    (l : Nat) (h : ∃ s ∈ sections, l ∈ s.added_lines) :
    ∃ u ∈ selectSmallestSections sections addedLines, l ∈ u.added_lines :=
  (selectSmallest_mem_union sections addedLines l).mpr h

/-- Witness for the amended C2 at a concrete input. -/
theorem selectSmallest_at_least_one_witness :
    (∃ s ∈ [cexSmall, cexBig], 2 ∈ s.added_lines) ∧
    (∃ u ∈ selectSmallestSections [cexSmall, cexBig] [1, 2], 2 ∈ u.added_lines) :=
  ⟨by decide, selectSmallest_at_least_one [cexSmall, cexBig] [1, 2] 2 (by decide)⟩

/-- A candidate whose `added_lines` field is empty, used in the C9
counterexample (the real collectors never produce one, which is exactly
what the amended C9 assumes). -/
def cexEmptyAdded : Candidate :=
  { type := [], name := [], start_line := 1, end_line := 1, start_offset := 0,
    end_offset := 0, added_lines := [], size := 1 }

/-- C9 counterexample: `selectSmallestSections` applied to a single
candidate returns it unconditionally (the length-1 shortcut), so a
candidate with an empty `added_lines` list is returned even though its
added lines are vacuously contained in the union of the (nonexistent)
strictly smaller selected units. -/
theorem selectSmallest_minimality_cex :
    ¬ (∀ (sections : List Candidate) (addedLines : List Nat),
        ∀ u ∈ selectSmallestSections sections addedLines,
          ¬ (∀ l ∈ u.added_lines, ∃ t ∈ selectSmallestSections sections addedLines,
              t.size < u.size ∧ l ∈ t.added_lines)) := by
  intro h
  exact h [cexEmptyAdded] [] cexEmptyAdded (by decide) (by decide)

/-- C9 amended: provided every candidate has a nonempty `added_lines`
list (which the collectors guarantee), no unit returned by
`selectSmallestSections` has its added lines fully contained in the union
of the added lines of returned units of strictly smaller size. -/
theorem selectSmallest_minimality (sections : List Candidate) (addedLines : List Nat)
    (hne : ∀ s ∈ sections, s.added_lines ≠ []) :
    ∀ u ∈ selectSmallestSections sections addedLines,
      ¬ (∀ l ∈ u.added_lines, ∃ t ∈ selectSmallestSections sections addedLines,
          t.size < u.size ∧ l ∈ t.added_lines) := by
  match sections with
  | [] =>
    intro u hu
    simp [selectSmallestSections] at hu
  | [s] =>
    intro u hu H
    have hu' : u = s := by simpa [selectSmallestSections] using hu
    obtain ⟨l, hl⟩ := List.exists_mem_of_ne_nil _ (hne s (List.mem_singleton_self s))
    rw [← hu'] at hl
    obtain ⟨t, ht, hlt, _⟩ := H l hl
    have ht' : t = s := by simpa [selectSmallestSections] using ht
    rw [hu', ht'] at hlt
    exact absurd hlt (lt_irrefl _)
  | a :: b :: rest =>
    intro u hu H
    have hsel : selectSmallestSections (a :: b :: rest) addedLines =
        selectLoop (List.insertionSort sizeLE (a :: b :: rest)) [] := rfl
    rw [hsel] at hu H
    have hsort : List.Pairwise sizeLE (List.insertionSort sizeLE (a :: b :: rest)) :=
      List.sorted_insertionSort sizeLE (a :: b :: rest)
    obtain ⟨l, hl1, _, hl3⟩ := selectLoop_min_line _ [] hsort u hu
    obtain ⟨t, ht, hlt, hmem⟩ := H l hl1
    exact hl3 t ht hlt hmem

/-- Witness for the amended C9 at a concrete input. -/
theorem selectSmallest_minimality_witness :
    (∀ s ∈ [cexSmall, cexBig], s.added_lines ≠ []) ∧
    ¬ (∀ l ∈ cexBig.added_lines, ∃ t ∈ selectSmallestSections [cexSmall, cexBig] [1, 2],
        t.size < cexBig.size ∧ l ∈ t.added_lines) :=
  ⟨by decide,
    selectSmallest_minimality [cexSmall, cexBig] [1, 2] (by decide) cexBig (by decide)⟩

/-!
## Section ordering (C5)
-/

/-- A large early candidate (lines 10-30) used in the ordering
counterexample. -/
def cexWide : Candidate :=
  { type := [], name := [], start_line := 10, end_line := 30, start_offset := 0,
    end_offset := 1, added_lines := [15], size := 21 }

/-- A small late candidate (lines 40-45) used in the ordering
counterexample. -/
def cexLate : Candidate :=
  { type := [], name := [], start_line := 40, end_line := 45, start_offset := 0,
    end_offset := 1, added_lines := [42], size := 6 }

/-- A configuration generous enough that no truncation occurs. -/
def cexConfig : AstConfig :=
  { maxSnippetLength := 100, maxBlockSizeLines := 1000, maxDepth := 60, timeoutMs := 8000 }

/-- C5 counterexample: the plain-script path maps the size limiter over
the selector's output without re-sorting, and the selector emits in
ascending-size order; with a big early function and a small late one the
emitted `start_line`s are `[40, 10]`, not ascending. -/
theorem jsImpactedSections_unsorted_cex :
    (jsImpactedSections [cexWide, cexLate] [15, 42] ['x'] cexConfig).map
        (fun s => s.start_line) = [40, 10] ∧
    ¬ List.Sorted startLineLE (jsImpactedSections [cexWide, cexLate] [15, 42] ['x'] cexConfig) :=
  ⟨by decide, by decide⟩

/-- C5 amended: the component path's `impacted_sections` (the
concatenation of all regions' sections, sorted by the final
`sort((a, b) => a.start_line - b.start_line)`) are sorted in ascending
order of `start_line`; the plain-script path instead returns sections in
the selector's ascending-size order. -/
theorem vueAssembleImpacted_sorted (scriptSections scriptSetupSections : List EmittedSection) :
    List.Sorted startLineLE (vueAssembleImpacted scriptSections scriptSetupSections) :=
  List.sorted_insertionSort startLineLE (scriptSections ++ scriptSetupSections)

/-!
## Character-limit truncation (C6)
-/

/-- C6: whenever a selected unit's raw snippet exceeds the configured
`maxSnippetLength`, both size limiters emit a Section with
`is_truncated = true` and `truncation_reason = char_limit` whose snippet
length is exactly `maxSnippetLength` plus the length of the appended
marker text — regardless of the unit's line count, i.e. the character
check preempts the line-count windowing check. -/
theorem char_limit_truncation (sec : Candidate) (vsec : VSection) (code : List Char)
    (config : AstConfig)
    (h1 : config.maxSnippetLength < (jsSubstring code sec.start_offset sec.end_offset).length)
    (h2 : config.maxSnippetLength < vsec.snippet.length) :
    ((limitSectionSize sec code config).is_truncated = true ∧
     (limitSectionSize sec code config).truncation_reason = some TruncationReason.char_limit ∧
     (limitSectionSize sec code config).snippet.length =
       config.maxSnippetLength +
         (truncMarker (jsSubstring code sec.start_offset sec.end_offset).length).length) ∧
    ((applySectionSizeLimit vsec config).is_truncated = true ∧
     (applySectionSizeLimit vsec config).truncation_reason = some TruncationReason.char_limit ∧
     (applySectionSizeLimit vsec config).snippet.length =
       config.maxSnippetLength + (truncMarker vsec.snippet.length).length) := by
  constructor
  · simp only [limitSectionSize]
    rw [if_pos h1]
    refine ⟨rfl, rfl, ?_⟩
    rw [List.length_append, List.length_take, Nat.min_eq_left (Nat.le_of_lt h1)]
  · simp only [applySectionSizeLimit]
    rw [if_pos h2]
    refine ⟨rfl, rfl, ?_⟩
    rw [List.length_append, List.length_take, Nat.min_eq_left (Nat.le_of_lt h2)]

/-- A candidate whose snippet (6 characters of code) exceeds the tiny
2-character limit of `cexTinyConfig`. -/
def cexTruncSec : Candidate :=
  { type := [], name := [], start_line := 1, end_line := 1, start_offset := 0,
    end_offset := 6, added_lines := [1], size := 1 }

/-- A component section with the same oversized 6-character snippet. -/
def cexTruncVsec : VSection :=
  { type := [], name := [], start_line := 1, end_line := 1, added_lines := [1],
    size := 1, snippet := ("abcdef").toList }

/-- A configuration with a 2-character snippet limit. -/
def cexTinyConfig : AstConfig :=
  { maxSnippetLength := 2, maxBlockSizeLines := 1000, maxDepth := 60, timeoutMs := 8000 }

/-- Witness for C6 at a concrete oversized snippet. -/
theorem char_limit_truncation_witness :
    (cexTinyConfig.maxSnippetLength <
      (jsSubstring ("abcdef").toList cexTruncSec.start_offset cexTruncSec.end_offset).length) ∧
    (cexTinyConfig.maxSnippetLength < cexTruncVsec.snippet.length) ∧
    ((limitSectionSize cexTruncSec ("abcdef").toList cexTinyConfig).is_truncated = true ∧
     (limitSectionSize cexTruncSec ("abcdef").toList cexTinyConfig).truncation_reason =
       some TruncationReason.char_limit ∧
     (limitSectionSize cexTruncSec ("abcdef").toList cexTinyConfig).snippet.length =
       cexTinyConfig.maxSnippetLength +
         (truncMarker (jsSubstring ("abcdef").toList cexTruncSec.start_offset
           cexTruncSec.end_offset).length).length) ∧
    ((applySectionSizeLimit cexTruncVsec cexTinyConfig).is_truncated = true ∧
     (applySectionSizeLimit cexTruncVsec cexTinyConfig).truncation_reason =
       some TruncationReason.char_limit ∧
     (applySectionSizeLimit cexTruncVsec cexTinyConfig).snippet.length =
       cexTinyConfig.maxSnippetLength + (truncMarker cexTruncVsec.snippet.length).length) := by
  have h := char_limit_truncation cexTruncSec cexTruncVsec ("abcdef").toList cexTinyConfig
    (by decide) (by decide)
  exact ⟨by decide, by decide, h.1, h.2⟩

/-!
## Component remapping round trip (C7)
-/

/-- C7: the component extractor remaps global added lines `g ≥ o` to
local coordinates via `g - o + 1`, dropping lines before the region
offset, and remaps every returned Section's line fields back via
`local + o - 1`; the composition restores every kept global line. -/
theorem region_remap_roundtrip (addedLines : List Nat) (o : Nat) (sec : VSection)
    (ho : 1 ≤ o) (hs : sec.added_lines = adjustAddedLines addedLines o) :
    (remapSection o sec).added_lines = addedLines.filter (fun g => decide (o ≤ g)) := by
  simp only [remapSection, hs, adjustAddedLines, List.map_map]
  have h : ∀ a ∈ addedLines.filter (fun g => decide (o ≤ g)),
      ((fun l => l + o - 1) ∘ fun line => line - o + 1) a = id a := by
    intro a ha
    have hoa : o ≤ a := by simpa using (List.mem_filter.mp ha).2
    simp only [Function.comp, id]
    omega
  rw [List.map_congr_left h, List.map_id]

/-- A region section whose `added_lines` are exactly the remap of the
global added lines `[3, 10, 20]` at offset 5. -/
def cexRegionSec : VSection :=
  { type := [], name := [], start_line := 2, end_line := 20, added_lines := [6, 16],
    size := 19, snippet := [] }

/-- Witness for C7 at a concrete region offset. -/
theorem region_remap_roundtrip_witness :
    (1 ≤ 5) ∧ (cexRegionSec.added_lines = adjustAddedLines [3, 10, 20] 5) ∧
    (remapSection 5 cexRegionSec).added_lines =
      [3, 10, 20].filter (fun g => decide (5 ≤ g)) :=
  ⟨by decide, by decide, region_remap_roundtrip [3, 10, 20] 5 cexRegionSec (by decide) (by decide)⟩

/-!
## Dispatch layer (C8)
-/

/-- C8: `extractAstContext` never raises — the embedding is a total
function into well-formed `ExtractionResult`s — and (i) an unrecognized
extension yields empty sections tagged `unsupported_file_type`, (ii) an
exception thrown by the JS extractor on a JS path yields empty sections
tagged `unexpected_error: <message>`, and (iii) likewise for the Vue
extractor on a `.vue` path. -/
theorem extractAstContext_dispatch (filePath : List Char)
    (jsE vueE : Except (List Char) ExtractionResult) (msg : List Char) :
    (isJsFilePath filePath = false → isVueFilePath filePath = false →
      extractAstContext filePath jsE vueE =
        { impacted_sections := [], errors := [("unsupported_file_type").toList] }) ∧
    (isJsFilePath filePath = true →
      extractAstContext filePath (Except.error msg) vueE =
        { impacted_sections := [], errors := [unexpectedErrorTag msg] }) ∧
    (isJsFilePath filePath = false → isVueFilePath filePath = true →
      extractAstContext filePath jsE (Except.error msg) =
        { impacted_sections := [], errors := [unexpectedErrorTag msg] }) := by
  refine ⟨?_, ?_, ?_⟩
  · intro h1 h2
    simp [extractAstContext, h1, h2]
  · intro h1
    simp [extractAstContext, h1]
  · intro h1 h2
    simp [extractAstContext, h1, h2]

/-- Witness for C8 on the three concrete paths `a.png`, `a.js`, `a.vue`. -/
theorem extractAstContext_dispatch_witness :
    (extractAstContext ("a.png").toList (Except.ok ⟨[], []⟩) (Except.ok ⟨[], []⟩) =
      { impacted_sections := [], errors := [("unsupported_file_type").toList] }) ∧
    (extractAstContext ("a.js").toList (Except.error ("boom").toList) (Except.ok ⟨[], []⟩) =
      { impacted_sections := [], errors := [unexpectedErrorTag ("boom").toList] }) ∧
    (extractAstContext ("a.vue").toList (Except.ok ⟨[], []⟩) (Except.error ("boom").toList) =
      { impacted_sections := [], errors := [unexpectedErrorTag ("boom").toList] }) :=
  ⟨(extractAstContext_dispatch ("a.png").toList (Except.ok ⟨[], []⟩) (Except.ok ⟨[], []⟩)
      ("boom").toList).1 (by decide) (by decide),
   (extractAstContext_dispatch ("a.js").toList (Except.error ("boom").toList)
      (Except.ok ⟨[], []⟩) ("boom").toList).2.1 (by decide),
   (extractAstContext_dispatch ("a.vue").toList (Except.ok ⟨[], []⟩)
      (Except.error ("boom").toList) ("boom").toList).2.2 (by decide) (by decide)⟩

/-!
## Well-formedness of emitted sections (C10)
-/

/-- Well-formedness of a candidate: nonempty `added_lines`, all within
the candidate's line range. -/
abbrev CandidateWF (s : Candidate) : Prop :=
  s.added_lines ≠ [] ∧ ∀ l ∈ s.added_lines, s.start_line ≤ l ∧ l ≤ s.end_line

/-- Well-formedness of an emitted Section. -/
abbrev EmittedWF (s : EmittedSection) : Prop :=
  s.added_lines ≠ [] ∧ ∀ l ∈ s.added_lines, s.start_line ≤ l ∧ l ≤ s.end_line

/-- Well-formedness of a component-local section. -/
abbrev VSectionWF (s : VSection) : Prop :=
  s.added_lines ≠ [] ∧ ∀ l ∈ s.added_lines, s.start_line ≤ l ∧ l ≤ s.end_line

/-- The candidate built by the collectors' push step
(src/ast_context.js lines 118-140 / component module lines 129-152):
`added_lines` is the filter of the added-line set by the node's line
range. -/
def collectSection (ty nm : List Char) (startLine endLine startOffset endOffset : Nat)
    (addedLines : List Nat) : Candidate :=
  { type := ty, name := nm, start_line := startLine, end_line := endLine,
    start_offset := startOffset, end_offset := endOffset,
    added_lines := addedLines.filter (fun l => decide (startLine ≤ l ∧ l ≤ endLine)),
    size := endLine - startLine + 1 }

/-- The limiter `limitSectionSize` copies `start_line`, `end_line` and `added_lines`
unchanged in all three branches. -/
theorem limitSectionSize_fields (sec : Candidate) (code : List Char) (config : AstConfig) :
    (limitSectionSize sec code config).start_line = sec.start_line ∧
    (limitSectionSize sec code config).end_line = sec.end_line ∧
    (limitSectionSize sec code config).added_lines = sec.added_lines := by
  simp only [limitSectionSize]
  by_cases h1 : config.maxSnippetLength < (jsSubstring code sec.start_offset sec.end_offset).length
  · rw [if_pos h1]
    exact ⟨rfl, rfl, rfl⟩
  · rw [if_neg h1]
    by_cases h2 : config.maxBlockSizeLines < sec.size
    · rw [if_pos h2]
      exact ⟨rfl, rfl, rfl⟩
    · rw [if_neg h2]
      exact ⟨rfl, rfl, rfl⟩

/-- The limiter `applySectionSizeLimit` spreads the input record, leaving
`start_line`, `end_line` and `added_lines` unchanged. -/
theorem applySectionSizeLimit_fields (sec : VSection) (config : AstConfig) :
    (applySectionSizeLimit sec config).start_line = sec.start_line ∧
    (applySectionSizeLimit sec config).end_line = sec.end_line ∧
    (applySectionSizeLimit sec config).added_lines = sec.added_lines := by
  simp only [applySectionSizeLimit]
  by_cases h1 : config.maxSnippetLength < sec.snippet.length
  · rw [if_pos h1]
    exact ⟨rfl, rfl, rfl⟩
  · rw [if_neg h1]
    by_cases h2 : config.maxBlockSizeLines < sec.size
    · rw [if_pos h2]
      exact ⟨rfl, rfl, rfl⟩
    · rw [if_neg h2]
      exact ⟨rfl, rfl, rfl⟩

/-- Every section returned by `selectSmallestSections` is one of its
input candidates. -/
theorem selectSmallest_mem (sections : List Candidate) (addedLines : List Nat) :
    ∀ u ∈ selectSmallestSections sections addedLines, u ∈ sections := by
  match sections with
  | [] => simp [selectSmallestSections]
  | [s] => simp [selectSmallestSections]
  | a :: b :: rest =>
    intro u hu
    have hu' : u ∈ selectLoop (List.insertionSort sizeLE (a :: b :: rest)) [] := hu
    exact (List.mem_insertionSort sizeLE).mp
      (selectLoop_mem (List.insertionSort sizeLE (a :: b :: rest)) [] u hu')

/-- Unfolding equation of the component covering loop. -/
theorem vueSelectLoop_cons (addedLines : List Nat) (config : AstConfig) (sec : VSection)
    (rest : List VSection) (covered : List Nat) :
    vueSelectLoop addedLines config (sec :: rest) covered =
      if (addedLines.filter
            (fun line => decide (sec.start_line ≤ line ∧ line ≤ sec.end_line))).any
          (fun line => decide (line ∉ covered)) then
        applySectionSizeLimit sec config ::
          vueSelectLoop addedLines config rest
            (covered ++ addedLines.filter
              (fun line => decide (sec.start_line ≤ line ∧ line ≤ sec.end_line)))
      else vueSelectLoop addedLines config rest covered := rfl

/-- Every section kept by the component covering loop is the size-limited
image of one of its input sections. -/
theorem vueSelectLoop_shape (addedLines : List Nat) (config : AstConfig)
    (ss : List VSection) (covered : List Nat) :
    ∀ u ∈ vueSelectLoop addedLines config ss covered,
      ∃ s ∈ ss, u = applySectionSizeLimit s config := by
  induction ss generalizing covered with
  | nil =>
    intro u hu
    simp [vueSelectLoop] at hu
  | cons sec rest ih =>
    intro u hu
    rw [vueSelectLoop_cons] at hu
    by_cases h : (addedLines.filter
        (fun line => decide (sec.start_line ≤ line ∧ line ≤ sec.end_line))).any
        (fun line => decide (line ∉ covered)) = true
    · rw [if_pos h] at hu
      rcases List.mem_cons.mp hu with hu | hu
      · exact ⟨sec, List.mem_cons_self sec rest, hu⟩
      · obtain ⟨s, hs, hu⟩ := ih _ u hu
        exact ⟨s, List.mem_cons_of_mem sec hs, hu⟩
    · rw [if_neg h] at hu
      obtain ⟨s, hs, hu⟩ := ih _ u hu
      exact ⟨s, List.mem_cons_of_mem sec hs, hu⟩

/-- Every section returned by the component selector is the size-limited
image of one of its input sections. -/
theorem vueSelectSmallest_shape (sections : List VSection) (addedLines : List Nat)
    (config : AstConfig) :
    ∀ u ∈ vueSelectSmallestSections sections addedLines config,
      ∃ s ∈ sections, u = applySectionSizeLimit s config := by
  match sections with
  | [] => simp [vueSelectSmallestSections]
  | [s] =>
    intro u hu
    have hu' : u = applySectionSizeLimit s config := by
      simpa [vueSelectSmallestSections] using hu
    exact ⟨s, List.mem_singleton_self s, hu'⟩
  | a :: b :: rest =>
    intro u hu
    have hu' : u ∈ vueSelectLoop addedLines config
        (List.insertionSort vSizeLE (a :: b :: rest)) [] := hu
    obtain ⟨s, hs, hueq⟩ := vueSelectLoop_shape addedLines config _ [] u hu'
    exact ⟨s, (List.mem_insertionSort vSizeLE).mp hs, hueq⟩

/-- The limiter `applySectionSizeLimit` preserves well-formedness. -/
theorem applySectionSizeLimit_wf (sec : VSection) (config : AstConfig) (h : VSectionWF sec) :
    VSectionWF (applySectionSizeLimit sec config) := by
  obtain ⟨f1, f2, f3⟩ := applySectionSizeLimit_fields sec config
  constructor
  · rw [f3]
    exact h.1
  · intro l hl
    rw [f3] at hl
    rw [f1, f2]
    exact h.2 l hl

/-- Remapping a well-formed region section back to file-global
coordinates preserves well-formedness. -/
theorem remapSection_wf (o : Nat) (sec : VSection) (ho : 1 ≤ o) (h : VSectionWF sec) :
    EmittedWF (remapSection o sec) := by
  obtain ⟨hne, hr⟩ := h
  constructor
  · simp only [remapSection]
    intro hmap
    exact hne (List.map_eq_nil_iff.mp hmap)
  · intro l hl
    simp only [remapSection] at hl ⊢
    obtain ⟨x, hx, rfl⟩ := List.mem_map.mp hl
    have hx' := hr x hx
    omega

/-- C10: implicit invariant of every emitted Section — (i) the collector
push step always yields a well-formed candidate, and on well-formed
candidates (ii) the plain-script pipeline `selectSmallestSections` +
`limitSectionSize` and (iii) the component pipeline (region remap,
component selector with size limiting, inverse remap, merge and sort)
only emit Sections whose `added_lines` is nonempty with every element
between `start_line` and `end_line`. -/
theorem sections_wellformed (cands : List Candidate) (v1 v2 : List VSection)
    (addedLines : List Nat) (code : List Char) (config : AstConfig) (o1 o2 : Nat)
    (hc : ∀ s ∈ cands, CandidateWF s)
    (hv1 : ∀ s ∈ v1, VSectionWF s) (hv2 : ∀ s ∈ v2, VSectionWF s)
    (ho1 : 1 ≤ o1) (ho2 : 1 ≤ o2) :
    (∀ ty nm sl el so eo, (collectSection ty nm sl el so eo addedLines).added_lines ≠ [] →
      CandidateWF (collectSection ty nm sl el so eo addedLines)) ∧
    (∀ u ∈ jsImpactedSections cands addedLines code config, EmittedWF u) ∧
    (∀ u ∈ vueAssembleImpacted (extractScriptSections v1 addedLines o1 config)
        (extractScriptSections v2 addedLines o2 config), EmittedWF u) := by
  refine ⟨?_, ?_, ?_⟩
  · intro ty nm sl el so eo hne
    refine ⟨hne, ?_⟩
    intro l hl
    have := (List.mem_filter.mp hl).2
    simpa using this
  · intro u hu
    obtain ⟨c, hc', rfl⟩ := List.mem_map.mp hu
    have hcin := selectSmallest_mem cands addedLines c hc'
    obtain ⟨f1, f2, f3⟩ := limitSectionSize_fields c code config
    obtain ⟨hne, hr⟩ := hc c hcin
    constructor
    · rw [f3]
      exact hne
    · intro l hl
      rw [f3] at hl
      rw [f1, f2]
      exact hr l hl
  · intro u hu
    have hu' : u ∈ extractScriptSections v1 addedLines o1 config ++
        extractScriptSections v2 addedLines o2 config :=
      (List.mem_insertionSort startLineLE).mp hu
    rcases List.mem_append.mp hu' with hu'' | hu''
    · obtain ⟨w, hw, rfl⟩ := List.mem_map.mp hu''
      obtain ⟨s, hs, rfl⟩ := vueSelectSmallest_shape v1 _ config w hw
      exact remapSection_wf o1 _ ho1 (applySectionSizeLimit_wf s config (hv1 s hs))
    · obtain ⟨w, hw, rfl⟩ := List.mem_map.mp hu''
      obtain ⟨s, hs, rfl⟩ := vueSelectSmallest_shape v2 _ config w hw
      exact remapSection_wf o2 _ ho2 (applySectionSizeLimit_wf s config (hv2 s hs))

/-- Witness for C10: a concrete emitted Section of the plain-script
pipeline is well-formed. -/
theorem sections_wellformed_witness :
    EmittedWF (limitSectionSize cexSmall ['x'] cexConfig) :=
  (sections_wellformed [cexSmall] [cexRegionSec] [] [1] ['x'] cexConfig 5 1
      (by decide) (by decide) (by decide) (by decide) (by decide)).2.1
    (limitSectionSize cexSmall ['x'] cexConfig) (by decide)

/-!
## Diff line mapper: malformed hunk headers (C4)
-/

/-- A line beginning with `-` does not begin with `+`. -/
theorem lineStarts_plus_of_minus (l : Line) (h : lineStarts "-" l = true) :
    lineStarts "+" l = false := by
  cases l with
  | nil => simp [lineStarts, List.isPrefixOf] at h
  | cons c cs =>
    simp only [lineStarts, List.isPrefixOf, Bool.and_eq_true, beq_iff_eq] at h ⊢
    rcases h with ⟨h, -⟩
    subst h
    decide

/-- A line beginning with `+` does not begin with `-`. -/
theorem lineStarts_minus_of_plus (l : Line) (h : lineStarts "+" l = true) :
    lineStarts "-" l = false := by
  cases l with
  | nil => simp [lineStarts, List.isPrefixOf] at h
  | cons c cs =>
    simp only [lineStarts, List.isPrefixOf, Bool.and_eq_true, beq_iff_eq] at h ⊢
    rcases h with ⟨h, -⟩
    subst h
    decide

/-- On a line whose `@@` header fails the regex, and on any line while no
valid header has been seen (`currentNewLine = -1`), the mapping step is a
no-op on the parser state. -/
theorem pdStep_no_header (ls : List Line) (i : Nat) (m : List (Nat × Nat))
    (h : ∀ l ∈ ls, lineStarts "@@" l = true → execHunkHeader l = none) :
    pdRun i ls { mapping := m, currentNewLine := none } =
      { mapping := m, currentNewLine := none } := by
  induction ls generalizing i with
  | nil => rfl
  | cons l rest ih =>
    have hstep : pdStep i l { mapping := m, currentNewLine := none } =
        { mapping := m, currentNewLine := none } := by
      by_cases hat : lineStarts "@@" l = true
      · simp [pdStep, hat, h l (List.mem_cons_self l rest) hat]
      · simp only [pdStep]
        rw [if_neg (by simpa using hat)]
        by_cases h2 : (lineStarts "+" l && !(lineStarts "+++" l)) = true
        · rw [if_pos h2]
        · rw [if_neg h2]
          by_cases h3 : (!(lineStarts "-" l) || lineStarts "---" l) = true
          · rw [if_pos h3]
          · rw [if_neg h3]
    show pdRun (i + 1) rest (pdStep i l { mapping := m, currentNewLine := none }) =
      { mapping := m, currentNewLine := none }
    rw [hstep]
    exact ih (i + 1) (fun x hx => h x (List.mem_cons_of_mem l hx))

/-- C4 amended: a hunk whose `@@` header line fails the header regex is
simply ignored — the header line leaves the parser state unchanged — so
(i) if no valid header has occurred yet, no mapping pairs are emitted
until the next valid header, but (ii) after an earlier valid hunk the
lines of the malformed hunk continue to be mapped with the previous
hunk's running counter (mapping does NOT stop for that hunk). -/
theorem malformed_header_ignored :
    (∀ (i : Nat) (line : Line) (s : PDState),
        lineStarts "@@" line = true → execHunkHeader line = none → pdStep i line s = s) ∧
    (∀ ls : List Line, (∀ l ∈ ls, lineStarts "@@" l = true → execHunkHeader l = none) →
        parseDiffNewlineMapLines ls = []) := by
  constructor
  · intro i line s h1 h2
    simp [pdStep, h1, h2]
  · intro ls h
    show (pdRun 0 ls { mapping := [], currentNewLine := none }).mapping = []
    rw [pdStep_no_header ls 0 [] h]

/-- Witness for the amended C4: a malformed header leaves a live counter
untouched, and a headerless diff yields no mapping. -/
theorem malformed_header_ignored_witness :
    (pdStep 2 (("@@ bad @@").toList) { mapping := [(2, 5)], currentNewLine := some 6 } =
      { mapping := [(2, 5)], currentNewLine := some 6 }) ∧
    parseDiffNewlineMapLines [("+a").toList, ("@@ bad @@").toList] = [] :=
  ⟨malformed_header_ignored.1 2 (("@@ bad @@").toList)
      { mapping := [(2, 5)], currentNewLine := some 6 } (by decide) (by decide),
   malformed_header_ignored.2 [("+a").toList, ("@@ bad @@").toList] (by decide)⟩

/-- The diff used in the C4 counterexample: a valid hunk, then a hunk
with a malformed header. -/
def cexMalformedDiff : List Line :=
  [("@@ -1 +5 @@").toList, ("+a").toList, ("@@ bad @@").toList, ("+b").toList]

/-- C4 counterexample: the pair `(4, 6)` is emitted for diff line 4 even
though line 4 lies in the hunk opened by the malformed header on line 3
(whose regex match fails): after a previous valid hunk, mapping does not
stop at a malformed header, refuting "emits no mapping pairs for any line
of that hunk". -/
theorem malformed_header_cex :
    parseDiffNewlineMapLines cexMalformedDiff = [(2, 5), (4, 6)] ∧
    lineStarts "@@" (("@@ bad @@").toList) = true ∧
    execHunkHeader (("@@ bad @@").toList) = none :=
  ⟨by decide, by decide, by decide⟩

/-!
## Diff line mapper: the Added-Line Set (C3)
-/

/-- Splitting the mapping run at a list append. -/
theorem pdRun_append (ls1 ls2 : List Line) (i : Nat) (s : PDState) :
    pdRun i (ls1 ++ ls2) s = pdRun (i + ls1.length) ls2 (pdRun i ls1 s) := by
  induction ls1 generalizing i s with
  | nil => simp [pdRun]
  | cons l rest ih =>
    show pdRun (i + 1) (rest ++ ls2) (pdStep i l s) =
      pdRun (i + (rest.length + 1)) ls2 (pdRun (i + 1) rest (pdStep i l s))
    rw [ih]
    congr 1
    omega

/-- Splitting the specification-side run at a list append. -/
theorem specRun_append (ls1 ls2 : List Line) (s : SpecDiffState) :
    specRun (ls1 ++ ls2) s = specRun ls2 (specRun ls1 s) := by
  simp [specRun, List.foldl_append]

/-- Before the first hunk header the specification-side counter stays
off and nothing is collected. -/
theorem specRun_pre (pre : List Line) (h : ∀ l ∈ pre, lineStarts "@@" l = false)
    (a : List Nat) :
    specRun pre { added := a, cur := none } = { added := a, cur := none } := by
  induction pre with
  | nil => rfl
  | cons l rest ih =>
    have hstep : specDiffStep l { added := a, cur := none } = { added := a, cur := none } := by
      have hat := h l (List.mem_cons_self l rest)
      simp only [specDiffStep]
      rw [if_neg (by simp [hat])]
      by_cases h2 : lineStarts "-" l = true
      · rw [if_pos h2]
      · rw [if_neg h2]
        by_cases h3 : lineStarts "+" l = true
        · rw [if_pos h3]
        · rw [if_neg h3]
    show specRun rest (specDiffStep l { added := a, cur := none }) = _
    rw [hstep]
    exact ih (fun x hx => h x (List.mem_cons_of_mem l hx))

/-- Agreement of the implementation and the specification-side counter on
any suffix of the diff in which every `@@` line parses and no line begins
with `---`: starting from related states, the second components of the
emitted mapping pairs coincide with the collected specification lines. -/
theorem run_agree (post : List Line) :
    ∀ (i : Nat) (m : List (Nat × Nat)) (a : List Nat) (cur : Option Nat),
      m.map Prod.snd = a →
      (∀ l ∈ post, lineStarts "@@" l = true → (execHunkHeader l).isSome) →
      (∀ l ∈ post, lineStarts "---" l = false) →
      (pdRun i post { mapping := m, currentNewLine := cur }).mapping.map Prod.snd =
        (specRun post { added := a, cur := cur }).added := by
  induction post with
  | nil =>
    intro i m a cur hma _ _
    simpa [pdRun, specRun] using hma
  | cons l rest ih =>
    intro i m a cur hma hhdr hnd
    have hhdr_l := hhdr l (List.mem_cons_self l rest)
    have hnd_l := hnd l (List.mem_cons_self l rest)
    have hhdr' : ∀ x ∈ rest, lineStarts "@@" x = true → (execHunkHeader x).isSome :=
      fun x hx => hhdr x (List.mem_cons_of_mem l hx)
    have hnd' : ∀ x ∈ rest, lineStarts "---" x = false :=
      fun x hx => hnd x (List.mem_cons_of_mem l hx)
    show (pdRun (i + 1) rest (pdStep i l { mapping := m, currentNewLine := cur })).mapping.map
        Prod.snd = (specRun rest (specDiffStep l { added := a, cur := cur })).added
    by_cases hat : lineStarts "@@" l = true
    · obtain ⟨n, hn⟩ := Option.isSome_iff_exists.mp (hhdr_l hat)
      have e1 : pdStep i l { mapping := m, currentNewLine := cur } =
          { mapping := m, currentNewLine := some n } := by
        simp [pdStep, hat, hn]
      have e2 : specDiffStep l { added := a, cur := cur } = { added := a, cur := some n } := by
        simp [specDiffStep, hat, hn]
      rw [e1, e2]
      exact ih (i + 1) m a (some n) hma hhdr' hnd'
    · have hatf : lineStarts "@@" l = false := by simpa using hat
      by_cases hminus : lineStarts "-" l = true
      · have hplusf : lineStarts "+" l = false := lineStarts_plus_of_minus l hminus
        have e1 : pdStep i l { mapping := m, currentNewLine := cur } =
            { mapping := m, currentNewLine := cur } := by
          simp [pdStep, hatf, hplusf, hminus, hnd_l]
        have e2 : specDiffStep l { added := a, cur := cur } = { added := a, cur := cur } := by
          simp [specDiffStep, hatf, hminus]
        rw [e1, e2]
        exact ih (i + 1) m a cur hma hhdr' hnd'
      · have hminusf : lineStarts "-" l = false := by simpa using hminus
        by_cases hplus : lineStarts "+" l = true
        · by_cases hppp : lineStarts "+++" l = true
          · cases cur with
            | none =>
              have e1 : pdStep i l { mapping := m, currentNewLine := none } =
                  { mapping := m, currentNewLine := none } := by
                simp [pdStep, hatf, hplus, hppp, hminusf]
              have e2 : specDiffStep l { added := a, cur := none } =
                  { added := a, cur := none } := by
                simp [specDiffStep, hatf, hplus, hminusf]
              rw [e1, e2]
              exact ih (i + 1) m a none hma hhdr' hnd'
            | some n =>
              have e1 : pdStep i l { mapping := m, currentNewLine := some n } =
                  { mapping := m, currentNewLine := some (n + 1) } := by
                simp [pdStep, hatf, hplus, hppp, hminusf]
              have e2 : specDiffStep l { added := a, cur := some n } =
                  { added := a, cur := some (n + 1) } := by
                simp [specDiffStep, hatf, hplus, hppp, hminusf]
              rw [e1, e2]
              exact ih (i + 1) m a (some (n + 1)) hma hhdr' hnd'
          · have hpppf : lineStarts "+++" l = false := by simpa using hppp
            cases cur with
            | none =>
              have e1 : pdStep i l { mapping := m, currentNewLine := none } =
                  { mapping := m, currentNewLine := none } := by
                simp [pdStep, hatf, hplus, hpppf]
              have e2 : specDiffStep l { added := a, cur := none } =
                  { added := a, cur := none } := by
                simp [specDiffStep, hatf, hplus, hminusf]
              rw [e1, e2]
              exact ih (i + 1) m a none hma hhdr' hnd'
            | some n =>
              have e1 : pdStep i l { mapping := m, currentNewLine := some n } =
                  { mapping := m ++ [(i + 1, n)], currentNewLine := some (n + 1) } := by
                simp [pdStep, hatf, hplus, hpppf]
              have e2 : specDiffStep l { added := a, cur := some n } =
                  { added := a ++ [n], cur := some (n + 1) } := by
                simp [specDiffStep, hatf, hplus, hpppf, hminusf]
              rw [e1, e2]
              exact ih (i + 1) (m ++ [(i + 1, n)]) (a ++ [n]) (some (n + 1))
                (by simp [hma]) hhdr' hnd'
        · have hplusf : lineStarts "+" l = false := by simpa using hplus
          cases cur with
          | none =>
            have e1 : pdStep i l { mapping := m, currentNewLine := none } =
                { mapping := m, currentNewLine := none } := by
              simp [pdStep, hatf, hplusf, hminusf]
            have e2 : specDiffStep l { added := a, cur := none } =
                { added := a, cur := none } := by
              simp [specDiffStep, hatf, hplusf, hminusf]
            rw [e1, e2]
            exact ih (i + 1) m a none hma hhdr' hnd'
          | some n =>
            have e1 : pdStep i l { mapping := m, currentNewLine := some n } =
                { mapping := m, currentNewLine := some (n + 1) } := by
              simp [pdStep, hatf, hplusf, hminusf]
            have e2 : specDiffStep l { added := a, cur := some n } =
                { added := a, cur := some (n + 1) } := by
              simp [specDiffStep, hatf, hplusf, hminusf]
            rw [e1, e2]
            exact ih (i + 1) m a (some (n + 1)) hma hhdr' hnd'

/-- C3 amended: for every diff whose `@@` lines all parse AND in which
every line beginning `---` occurs before the first hunk header (file
headers), the second components of the pairs returned by
`parseDiffNewlineMap` are exactly the new-file line numbers of the `+`
lines (excluding `+++`) across all hunks, as counted by the specification
semantics — hence the Added-Line Set built by the review engine equals
the specified set.  The extra `---` proviso is forced by the
counterexample: inside a hunk the implementation treats a `---` deletion
line as context and advances the new-file counter. -/
theorem addedLineSet_matches_spec (pre post : List Line)
    (hpre : ∀ l ∈ pre, lineStarts "@@" l = false)
    (hhdr : ∀ l ∈ post, lineStarts "@@" l = true → (execHunkHeader l).isSome)
    (hnd : ∀ l ∈ post, lineStarts "---" l = false) :
    (parseDiffNewlineMapLines (pre ++ post)).map Prod.snd = specAddedLines (pre ++ post) := by
  show (pdRun 0 (pre ++ post) { mapping := [], currentNewLine := none }).mapping.map Prod.snd =
    (specRun (pre ++ post) { added := [], cur := none }).added
  rw [pdRun_append, specRun_append]
  rw [pdStep_no_header pre 0 []
    (fun l hl hat => absurd hat (by simp [hpre l hl]))]
  rw [specRun_pre pre hpre []]
  rw [Nat.zero_add]
  exact run_agree post pre.length [] [] none rfl hhdr hnd

/-- The file-header prefix of the C3 witness diff. -/
def cexPre : List Line := [("--- a/f").toList, ("+++ b/f").toList]

/-- The hunk of the C3 witness diff. -/
def cexPost : List Line :=
  [("@@ -1,2 +3,4 @@").toList, (" ctx").toList, ("+x").toList, ("-y").toList, ("+z").toList]

/-- Witness for the amended C3 on a concrete two-header, one-hunk diff:
the mapped second components and the specified added lines are both
`[4, 5]`. -/
theorem addedLineSet_matches_spec_witness :
    (parseDiffNewlineMapLines (cexPre ++ cexPost)).map Prod.snd =
      specAddedLines (cexPre ++ cexPost) ∧
    (parseDiffNewlineMapLines (cexPre ++ cexPost)).map Prod.snd = [4, 5] :=
  ⟨addedLineSet_matches_spec cexPre cexPost (by decide) (by decide) (by decide), by decide⟩

/-- The diff used in the C3 counterexample: a hunk that deletes a line
whose content begins with `--`, so the diff line begins with `---`. -/
def cexDashDiff : List Line :=
  [("@@ -1,2 +1,2 @@").toList, ("---a").toList, ("+b").toList]

/-- C3 counterexample: in `cexDashDiff` every `@@` header parses, yet the
implementation maps the `+b` line to new-file line 2 — it treats the
`---a` deletion line as context and advances the new-file counter — while
by the hunk-counting semantics `+b` is at new-file line 1; the two
Added-Line Sets `{2}` and `{1}` differ, refuting the claim as stated. -/
theorem addedLineSet_spec_cex :
    (∀ l ∈ cexDashDiff, lineStarts "@@" l = true → (execHunkHeader l).isSome) ∧
    (parseDiffNewlineMapLines cexDashDiff).map Prod.snd = [2] ∧
    specAddedLines cexDashDiff = [1] :=
  ⟨by decide, by decide, by decide⟩
